import Mathlib

/-
Shallow embedding of the indexed append-only JSONL record store of the
openworld_methane repository:
  src/openworld_methane/persistence/indexed_jsonl.py  (IndexedJsonlStore)
  src/openworld_methane/persistence/jsonl.py          (read_records)
  src/openworld_methane/models.py                     (EmissionRecord)
  src/openworld_methane/core/timeutil.py              (parse_timestamp)
  src/openworld_methane/core/units.py                 (to_kg_per_h)

Modelling conventions:
* A Python datetime normalized to UTC is modelled by an integer instant
  (microseconds since the epoch).  EmissionRecord.__post_init__ and
  parse_timestamp both normalize to UTC, and datetime.isoformat followed by
  parse_timestamp is the identity on UTC datetimes, so a serialized
  timestamp is modelled by the instant its string denotes.
* A Python float is modelled by a rational number; json.dumps followed by
  float() round-trips a float value exactly.
* A line of the log file is modelled by what the store's readers observe
  of it: blank after strip(), not valid JSON (json.loads raises
  JSONDecodeError), or a JSON object carrying the fields the code reads.
  A timestamp string is modelled by whether parse_timestamp accepts it
  and, if accepted, which UTC instant it denotes.  The model covers JSON
  values that are objects with string timestamps, which is everything the
  store's own writer produces.
* The byte length of a serialized line is carried explicitly: plen is
  len(line.strip().encode("utf-8")) and nlen is the number of bytes the
  file position advances past the raw line (payload plus newline).  The
  JSON encoding length of an object written by append is abstracted as an
  arbitrary function encLen of the object.
* File I/O failures other than non-existence are injected through
  explicit fault flags, one per open-for-read / open-for-write site; a
  raised OSError is modelled at the opening of the file.
-/

/-- Exceptions distinguished by the except clauses of the Python code. -/
inductive Exc where
  | jsonDecodeError
  | keyError
  | valueError
  | ioError
deriving DecidableEq

/-- Models src/openworld_methane/models.py EmissionRecord after
__post_init__ (the timestamp is already UTC-normalized). -/
structure EmissionRecord where
  timestamp : Int
  site_id : String
  region_id : String
  emission_rate_kg_per_h : Rat
  source : String
  meta : Option (List (String × String))
deriving DecidableEq

/-- Models the value of the "timestamp" key of a JSON line as seen through
core/timeutil.py parse_timestamp: either a string that parses to a UTC
instant, or a string on which parse_timestamp raises ValueError. -/
inductive TsField where
  | ok (t : Int)
  | bad
deriving DecidableEq

/-- The fields of a JSON object line that the store's readers access.
Absent keys raise KeyError on subscripting.  rate models the
"emission_rate_kg_per_h" key; value and unit model the fallback keys. -/
structure JsonObj where
  timestamp : Option TsField
  site_id : Option String
  region_id : Option String
  rate : Option Rat
  value : Option Rat
  unit : Option String
deriving DecidableEq

/-- A log line as observable by the readers. -/
inductive Line where
  | blank
  | notJson
  | json (o : JsonObj)
deriving DecidableEq

/-- One physical line of the log file: its observable content, the byte
length of its stripped payload, and the total byte advance of the raw
line (payload plus terminating newline). -/
structure LogLine where
  line : Line
  plen : Nat
  nlen : Nat
deriving DecidableEq

/-- Models core/units.py to_kg_per_h; an unsupported unit raises
ValueError. -/
def to_kg_per_h (value : Rat) (unit : String) : Except Exc Rat :=
  if unit = "kg/h" then .ok value
  else if unit = "g/h" then .ok (value / 1000)
  else if unit = "m3/h" then .ok (value * (656 / 1000))
  else .error .valueError

/-- Models the shared record-decoding body of jsonl.py read_records and
indexed_jsonl.py _read_records_by_offsets (lines 35-64 and 161-185): if
the "emission_rate_kg_per_h" key is present, parse the timestamp and take
the fields directly; otherwise fall back to converting "value" with
"unit" via to_kg_per_h.  Exceptions are produced in the order the Python
expressions evaluate. -/
def parseRecordObj (src : String) (o : JsonObj) : Except Exc EmissionRecord :=
  match o.rate with
  | some r =>
    match o.timestamp with
    | none => .error .keyError
    | some .bad => .error .valueError
    | some (.ok ts) =>
      match o.site_id with
      | none => .error .keyError
      | some s =>
        match o.region_id with
        | none => .error .keyError
        | some g =>
          .ok ⟨ts, s, g, r, src, none⟩
  | none =>
    match o.timestamp with
    | none => .error .keyError
    | some .bad => .error .valueError
    | some (.ok ts) =>
      match o.unit with
      | none => .error .keyError
      | some u =>
        match o.value with
        | none => .error .keyError
        | some v =>
          match to_kg_per_h v u.trim with
          | .error e => .error e
          | .ok rate =>
            match o.site_id with
            | none => .error .keyError
            | some s =>
              match o.region_id with
              | none => .error .keyError
              | some g =>
                .ok ⟨ts, s, g, rate, src, none⟩

/-- Models jsonl.py read_records: scans the lines in order, skips blank
lines, and parses every other line with no exception handling at all, so
the first malformed line aborts the whole scan with its exception. -/
def read_records : List LogLine → Except Exc (List EmissionRecord)
  | [] => .ok []
  | l :: rest =>
    match l.line with
    | .blank => read_records rest
    | .notJson => .error .jsonDecodeError
    | .json o =>
      match parseRecordObj "jsonl" o with
      | .error e => .error e
      | .ok r =>
        match read_records rest with
        | .error e => .error e
        | .ok rs => .ok (r :: rs)

/-- Models indexed_jsonl.py IndexEntry. -/
structure IndexEntry where
  offset : Nat
  length : Nat
  timestamp : Int
  site_id : String
  region_id : String
deriving DecidableEq

/-- The observable states of the sidecar index file: absent, holding a
pickle that deserializes to an entry list, or bytes on which pickle.load
raises. -/
inductive Sidecar where
  | absent
  | valid (idx : List IndexEntry)
  | corrupt
deriving DecidableEq

/-- Injected I/O failures, one flag per file-opening site.  logRead:
opening the existing log for reading raises OSError; logWrite: opening
the log for appending raises; sidecarRead: reading or unpickling the
existing sidecar raises; sidecarOpenW: opening the sidecar for writing
raises, leaving its bytes unchanged; sidecarWrite: the write after a
successful truncating open raises, leaving the sidecar corrupt. -/
structure Faults where
  logRead : Bool
  logWrite : Bool
  sidecarRead : Bool
  sidecarOpenW : Bool
  sidecarWrite : Bool
deriving DecidableEq

def noFaults : Faults := ⟨false, false, false, false, false⟩

/-- The files the store touches: the log (none when the file does not
exist) and the sidecar, plus the injected fault flags. -/
structure World where
  log : Option (List LogLine)
  sidecar : Sidecar
  faults : Faults
deriving DecidableEq

/-- The in-memory state of an IndexedJsonlStore handle: self._index and
self._index_loaded. -/
structure StoreState where
  index : List IndexEntry
  indexLoaded : Bool
deriving DecidableEq

/-- The state of a freshly constructed handle after __init__ (which also
touches the log file into existence). -/
def freshStore : StoreState := ⟨[], false⟩

/-- Models path.stat().st_size: total byte size of the log file. -/
def logSize (lines : List LogLine) : Nat := (lines.map LogLine.nlen).sum

/-- Each line of the log paired with its starting byte offset, the
offsets fp.tell() reports during a sequential scan from base. -/
def lineStarts : List LogLine → Nat → List (Nat × LogLine)
  | [], _ => []
  | l :: rest, off => (off, l) :: lineStarts rest (off + l.nlen)

/-- Models _save_index (indexed_jsonl.py lines 72-84): open the sidecar
path itself with mode "wb" and pickle.dump into it; every exception is
caught and only logged.  A failing open leaves the sidecar unchanged; a
failure after the truncating open leaves it corrupt. -/
def save_index (st : StoreState) (w : World) : World :=
  if w.faults.sidecarOpenW then w
  else if w.faults.sidecarWrite then ⟨w.log, .corrupt, w.faults⟩
  else ⟨w.log, .valid st.index, w.faults⟩

/-- Models the scanning loop of _rebuild_index (lines 96-125): per line,
record offset and stripped byte length before parsing; json.loads
failures and missing keys are caught by the inner except clause
(JSONDecodeError, KeyError) and skipped with a warning, but a ValueError
raised by parse_timestamp escapes the inner clause and aborts the scan. -/
def rebuildScan : List LogLine → Nat → Except Exc (List IndexEntry)
  | [], _ => .ok []
  | l :: rest, off =>
    match l.line with
    | .blank => rebuildScan rest (off + l.nlen)
    | .notJson => rebuildScan rest (off + l.nlen)
    | .json o =>
      match o.timestamp with
      | none => rebuildScan rest (off + l.nlen)
      | some .bad => .error .valueError
      | some (.ok ts) =>
        match o.site_id with
        | none => rebuildScan rest (off + l.nlen)
        | some s =>
          match o.region_id with
          | none => rebuildScan rest (off + l.nlen)
          | some g =>
            match rebuildScan rest (off + l.nlen) with
            | .error e => .error e
            | .ok es => .ok (⟨off, l.plen, ts, s, g⟩ :: es)

/-- Models _rebuild_index (lines 86-137): reset the index; a missing or
zero-byte log leaves it empty with no save; otherwise scan the log and
save the result, where any exception escaping the scan (a failing open,
or a ValueError from parse_timestamp) is caught by the outer except
clause and resets the index to empty. -/
def rebuild_index (st : StoreState) (w : World) : StoreState × World :=
  match w.log with
  | none => (⟨[], st.indexLoaded⟩, w)
  | some lines =>
    if logSize lines = 0 then (⟨[], st.indexLoaded⟩, w)
    else if w.faults.logRead then (⟨[], st.indexLoaded⟩, w)
    else
      match rebuildScan lines 0 with
      | .error _ => (⟨[], st.indexLoaded⟩, w)
      | .ok idx => (⟨idx, st.indexLoaded⟩, save_index ⟨idx, st.indexLoaded⟩ w)

/-- Models _load_index (lines 49-70): a no-op once loaded; otherwise
adopt a successfully unpickled sidecar, and on an absent sidecar or any
exception (unreadable or corrupt sidecar) rebuild; finally mark the
index loaded. -/
def load_index (st : StoreState) (w : World) : StoreState × World :=
  if st.indexLoaded then (st, w)
  else
    match w.sidecar with
    | .valid idx =>
      if w.faults.sidecarRead then
        let (st2, w2) := rebuild_index st w
        (⟨st2.index, true⟩, w2)
      else (⟨idx, true⟩, w)
    | .absent =>
      let (st2, w2) := rebuild_index st w
      (⟨st2.index, true⟩, w2)
    | .corrupt =>
      let (st2, w2) := rebuild_index st w
      (⟨st2.index, true⟩, w2)

/-- The JSON object append writes for a record (lines 218-223): the
timestamp rendered as its UTC ISO-8601 string (which parse_timestamp
maps back to the same instant), the identifiers, and the normalized
rate.  The source tag and meta are not serialized. -/
def appendSer (r : EmissionRecord) : JsonObj :=
  ⟨some (.ok r.timestamp), some r.site_id, some r.region_id,
   some r.emission_rate_kg_per_h, none, none⟩

/-- The writing loop of append (lines 214-235), starting at file
position pos: produces the new log lines, the new index entries (whose
length field counts the newline, unlike rebuild's), and the count.
encLen abstracts len(json.dumps(obj).encode("utf-8")). -/
def appendLoop (encLen : JsonObj → Nat) :
    List EmissionRecord → Nat → List LogLine × List IndexEntry × Nat
  | [], _ => ([], [], 0)
  | r :: rs, pos =>
    let o := appendSer r
    let len := encLen o + 1
    let (ls, es, n) := appendLoop encLen rs (pos + len)
    (⟨.json o, encLen o, len⟩ :: ls,
     (⟨pos, len, r.timestamp, r.site_id, r.region_id⟩ : IndexEntry) :: es,
     n + 1)

/-- Models append (lines 203-252): load the index, write each record as
one JSON line at the end of the log (open("a") creates a missing file),
extend the in-memory index with the new entries, save the index (its
failures are swallowed inside _save_index), and return the count; a log
write failure is logged and re-raised. -/
def append (encLen : JsonObj → Nat) (st : StoreState) (w : World)
    (records : List EmissionRecord) : Except Exc Nat × StoreState × World :=
  let (st1, w1) := load_index st w
  if w1.faults.logWrite then (.error .ioError, st1, w1)
  else
    let old := w1.log.getD []
    let (newLines, newEntries, count) := appendLoop encLen records (logSize old)
    let st2 : StoreState := ⟨st1.index ++ newEntries, st1.indexLoaded⟩
    let w2 : World := ⟨some (old ++ newLines), w1.sidecar, w1.faults⟩
    (.ok count, st2, save_index st2 w2)

/-- Models IndexedJsonlStore.all (lines 254-262): a full read_records
scan of the log; only FileNotFoundError is caught (yielding []), every
other exception propagates.  Reading never changes the files. -/
def allRecords (w : World) : Except Exc (List EmissionRecord) × World :=
  match w.log with
  | none => (.ok [], w)
  | some lines =>
    if w.faults.logRead then (.error .ioError, w)
    else (read_records lines, w)

/-- The line a seek-then-readline at byte position off yields: the line
starting exactly at off, if any.  A seek at EOF reads the empty string
and a seek inside a line reads a proper suffix of it; both are skipped
by the reader (empty after strip, or text that fails json.loads), which
the callers of this function fold into the none case. -/
def lineAtOffset (lines : List LogLine) (off : Nat) : Option LogLine :=
  ((lineStarts lines 0).find? (fun p => p.1 = off)).map (fun p => p.2)

/-- One iteration of the offset loop of _read_records_by_offsets (lines
148-191): seek, readline, strip, and decode; blank reads and every
exception of the inner except clause (JSONDecodeError, KeyError,
ValueError) are skipped with a warning. -/
def readOneAt (lines : List LogLine) (off : Nat) : Option EmissionRecord :=
  match lineAtOffset lines off with
  | none => none
  | some l =>
    match l.line with
    | .blank => none
    | .notJson => none
    | .json o =>
      match parseRecordObj "indexed_jsonl" o with
      | .ok r => some r
      | .error _ => none

/-- Models _read_records_by_offsets (lines 139-201): an empty request
returns [] at once; the offsets are visited in sorted(offsets) order,
not request order; a missing log file or a failing open raises inside
the outer try and is caught by its except Exception clause, which only
logs, so the records collected so far (none) are returned with no error
surfaced to the caller.  Python's sorted on integers produces exactly
the nondecreasing reordering that insertionSort does. -/
def read_records_by_offsets (w : World) (offsets : List Nat) :
    List EmissionRecord :=
  if offsets = [] then []
  else
    match w.log with
    | none => []
    | some lines =>
      if w.faults.logRead then []
      else (List.insertionSort (· ≤ ·) offsets).filterMap (readOneAt lines)

/-- Models the Python slice l[-n:] for a nonnegative n: for n = 0 the
index -0 is 0, so the slice is the whole list. -/
def pySliceLast (l : List α) (n : Nat) : List α :=
  if n = 0 then l else l.drop (l.length - n)

/-- Models IndexedJsonlStore.tail (lines 264-275): load the index,
return [] on an empty index, otherwise take self._index[-n:] when
len(self._index) >= n (the whole index otherwise) and resolve the
entries' offsets through _read_records_by_offsets. -/
def tail (st : StoreState) (w : World) (n : Nat) :
    List EmissionRecord × StoreState × World :=
  let (st1, w1) := load_index st w
  if st1.index = [] then ([], st1, w1)
  else
    let tailEntries := if n ≤ st1.index.length then pySliceLast st1.index n
                       else st1.index
    (read_records_by_offsets w1 (tailEntries.map IndexEntry.offset), st1, w1)

/-- The summary dictionary of IndexedJsonlStore.summary. -/
structure SummaryStats where
  count : Nat
  mean : Rat
  lo : Rat
  hi : Rat
deriving DecidableEq

/-- Models IndexedJsonlStore.summary (lines 277-291): materialize all(),
whose exceptions propagate, and fold count, mean, min and max of the
rates; an empty store yields all-zero statistics. -/
def summary (w : World) : Except Exc SummaryStats × World :=
  match allRecords w with
  | (.error e, w1) => (.error e, w1)
  | (.ok rs, w1) =>
    match rs.map EmissionRecord.emission_rate_kg_per_h with
    | [] => (.ok ⟨0, 0, 0, 0⟩, w1)
    | v :: vs =>
      (.ok ⟨(v :: vs).length, (v :: vs).sum / ((v :: vs).length : Rat),
            vs.foldl min v, vs.foldl max v⟩, w1)

/-- One row of IndexedJsonlStore.to_dicts: the timestamp key holds the
canonical UTC ISO-8601 rendering, modelled by the instant it denotes. -/
structure RecordRow where
  timestamp : Int
  site_id : String
  region_id : String
  emission_rate_kg_per_h : Rat
deriving DecidableEq

/-- Models IndexedJsonlStore.to_dicts (lines 293-304): materialize all()
and project each record to its serialized row, preserving order. -/
def to_dicts (w : World) : Except Exc (List RecordRow) × World :=
  match allRecords w with
  | (.error e, w1) => (.error e, w1)
  | (.ok rs, w1) =>
    (.ok (rs.map fun r =>
      ⟨r.timestamp, r.site_id, r.region_id, r.emission_rate_kg_per_h⟩), w1)

/-- Models IndexedJsonlStore.query_time_range (lines 306-324): load the
index, return [] on an empty index, keep the entries with timestamp at
least start (when given) and strictly below the end bound (when given),
and resolve their offsets.  A datetime argument is always truthy, so the
truthiness tests on start and end in the Python are None tests. -/
def query_time_range (st : StoreState) (w : World)
    (start stop : Option Int) : List EmissionRecord × StoreState × World :=
  let (st1, w1) := load_index st w
  if st1.index = [] then ([], st1, w1)
  else
    let offsets := (st1.index.filter (fun e =>
      (match start with | some s => decide (s ≤ e.timestamp) | none => true) &&
      (match stop with | some t => decide (e.timestamp < t) | none => true))).map
        IndexEntry.offset
    (read_records_by_offsets w1 offsets, st1, w1)

/-- Models IndexedJsonlStore.query_by_site (lines 326-335). -/
def query_by_site (st : StoreState) (w : World) (site : String) :
    List EmissionRecord × StoreState × World :=
  let (st1, w1) := load_index st w
  let offsets := (st1.index.filter (fun e => e.site_id = site)).map
    IndexEntry.offset
  (read_records_by_offsets w1 offsets, st1, w1)

/-- Models IndexedJsonlStore.query_by_region (lines 337-346). -/
def query_by_region (st : StoreState) (w : World) (region : String) :
    List EmissionRecord × StoreState × World :=
  let (st1, w1) := load_index st w
  let offsets := (st1.index.filter (fun e => e.region_id = region)).map
    IndexEntry.offset
  (read_records_by_offsets w1 offsets, st1, w1)

/-- Models IndexedJsonlStore.get_sites (lines 348-351); the Python set
is modelled as the deduplicated value list. -/
def get_sites (st : StoreState) (w : World) :
    List String × StoreState × World :=
  let (st1, w1) := load_index st w
  ((st1.index.map IndexEntry.site_id).dedup, st1, w1)

/-- Models IndexedJsonlStore.get_regions (lines 353-356). -/
def get_regions (st : StoreState) (w : World) :
    List String × StoreState × World :=
  let (st1, w1) := load_index st w
  ((st1.index.map IndexEntry.region_id).dedup, st1, w1)

/-- A well-formed log line in the sense of the index: a JSON object with
a parsable timestamp and both identifier keys, exactly what a completed
rebuild scan turns into an entry. -/
def wellFormedLine (l : LogLine) : Bool :=
  match l.line with
  | .json o =>
    (match o.timestamp with | some (.ok _) => true | _ => false) &&
    o.site_id.isSome && o.region_id.isSome
  | _ => false

/-- The number of well-formed lines of a log. -/
def wellFormedCount (lines : List LogLine) : Nat :=
  (lines.filter wellFormedLine).length

/-- A line whose parsing cannot raise ValueError during rebuild: every
JSON-decodable line carries a parsable timestamp. -/
def cleanLine (l : LogLine) : Bool :=
  match l.line with
  | .json o => match o.timestamp with | some .bad => false | _ => true
  | _ => true

/-- The index entry a rebuild scan derives from the line at offset off,
if the line is well-formed. -/
def entryOfAt (off : Nat) (l : LogLine) : Option IndexEntry :=
  match l.line with
  | .json o =>
    match o.timestamp with
    | some (.ok ts) =>
      match o.site_id, o.region_id with
      | some s, some g => some ⟨off, l.plen, ts, s, g⟩
      | _, _ => none
    | _ => none
  | _ => none

/-- The entries of the well-formed lines of a log scanned from byte
position base, in physical order with their true offsets. -/
def goodIndexFrom (base : Nat) (lines : List LogLine) : List IndexEntry :=
  (lineStarts lines base).filterMap (fun p => entryOfAt p.1 p.2)

/-- The reference index of a log: one entry per well-formed line, in log
order. -/
def goodIndex (lines : List LogLine) : List IndexEntry :=
  goodIndexFrom 0 lines

/-- The storage-format-independent content of an index entry: its
offset, timestamp and identifiers.  The length field is excluded because
append and rebuild measure it differently (with and without the
newline). -/
def entryKey (e : IndexEntry) : Nat × Int × String × String :=
  (e.offset, e.timestamp, e.site_id, e.region_id)

/-- File-level steps a sidecar save might perform, for stating the
write-then-replace property.  onFinal is true when the step targets the
sidecar path itself rather than a temporary file. -/
inductive FileOp where
  | openTruncate (onFinal : Bool)
  | writeData (onFinal : Bool) (idx : List IndexEntry)
  | closeFile (onFinal : Bool)
  | replaceOntoFinal
deriving DecidableEq

/-- The file operations _save_index performs (lines 75-76): it opens the
sidecar path itself in truncating "wb" mode and pickles the index
straight into it. -/
def save_index_ops (idx : List IndexEntry) : List FileOp :=
  [.openTruncate true, .writeData true idx, .closeFile true]

/-- A step that mutates the sidecar path other than by an atomic
replace. -/
def mutatesFinalDirectly (op : FileOp) : Bool :=
  match op with
  | .openTruncate b => b
  | .writeData b _ => b
  | _ => false

/-- The write-then-replace discipline the spec requires of a sidecar
save: the data goes to a temporary file and the sidecar path itself is
only ever touched by an atomic replace. -/
def writeThenReplace (ops : List FileOp) : Prop :=
  (∀ op ∈ ops, mutatesFinalDirectly op = false) ∧ FileOp.replaceOntoFinal ∈ ops

instance (ops : List FileOp) : Decidable (writeThenReplace ops) := by
  unfold writeThenReplace
  infer_instance

/-- The record the readers reconstruct from a serialized record: the four
persisted fields survive, the source tag is replaced by the reader's own
tag and meta is dropped. -/
def readBack (src : String) (r : EmissionRecord) : EmissionRecord :=
  ⟨r.timestamp, r.site_id, r.region_id, r.emission_rate_kg_per_h, src, none⟩

/-- The world of a freshly created store over a path that never existed:
__init__ touches the log into existence as an empty file. -/
def emptyWorld : World := ⟨some [], .absent, noFaults⟩

/- Concrete fixtures used by counterexamples and witnesses. -/

/-- A well-formed log line at instant 0 for site-1. -/
def lineA : LogLine :=
  ⟨.json ⟨some (.ok 0), some "site-1", some "region-1", some 5, none, none⟩, 9, 10⟩

/-- A well-formed log line at instant 100 for site-2. -/
def lineB : LogLine :=
  ⟨.json ⟨some (.ok 100), some "site-2", some "region-2", some 6, none, none⟩, 9, 10⟩

/-- A line that is valid JSON with all keys present but whose timestamp
string parse_timestamp rejects with ValueError. -/
def badTsLine : LogLine :=
  ⟨.json ⟨some .bad, some "site-3", some "region-3", some 7, none, none⟩, 9, 10⟩

/-- A line on which json.loads raises JSONDecodeError. -/
def notJsonLine : LogLine := ⟨.notJson, 5, 6⟩

/-- The index entry of lineA at offset 0. -/
def entryA : IndexEntry := ⟨0, 10, 0, "site-1", "region-1"⟩

/-- A concrete serialized-line length function for witnesses. -/
def encLen1 : JsonObj → Nat := fun _ => 9

/-- A record carrying a caller-chosen source tag, as the adapters
produce. -/
def recTest : EmissionRecord := ⟨0, "site-1", "region-1", 5, "test", none⟩

/-- A second record appended in the C8 scenario. -/
def recNext : EmissionRecord := ⟨100, "site-2", "region-2", 6, "test", none⟩

/-- The world of the C8 stale-sidecar scenario: a one-record log whose
sidecar is valid and current, with the sidecar-open fault armed so the
next save fails before truncating anything. -/
def staleWorld : World :=
  ⟨some [lineA], .valid [entryA], ⟨false, false, false, true, false⟩⟩

/-- The loaded store handle of the C8 scenario. -/
def staleStore : StoreState := ⟨[entryA], true⟩

/- Helper lemmas about the embedded operations. -/

/-- Saving the index touches the sidecar only: the log is unchanged. -/
theorem save_index_log (st : StoreState) (w : World) :
    (save_index st w).log = w.log := by
  unfold save_index
  split
  · rfl
  · split <;> rfl

/-- Saving the index leaves the fault flags unchanged. -/
theorem save_index_faults (st : StoreState) (w : World) :
    (save_index st w).faults = w.faults := by
  unfold save_index
  split
  · rfl
  · split <;> rfl

/-- Rebuilding reads the log and writes the sidecar only: the log is
unchanged. -/
theorem rebuild_index_log (st : StoreState) (w : World) :
    (rebuild_index st w).2.log = w.log := by
  unfold rebuild_index
  cases hl : w.log with
  | none => exact hl
  | some lines =>
    simp only []
    split
    · exact hl
    · split
      · exact hl
      · split
        · exact hl
        · rw [save_index_log]
          exact hl

/-- Rebuilding leaves the fault flags unchanged. -/
theorem rebuild_index_faults (st : StoreState) (w : World) :
    (rebuild_index st w).2.faults = w.faults := by
  unfold rebuild_index
  cases hl : w.log with
  | none => rfl
  | some lines =>
    simp only []
    split
    · rfl
    · split
      · rfl
      · split
        · rfl
        · exact save_index_faults _ _

/-- Loading never touches the log file. -/
theorem load_index_log (st : StoreState) (w : World) :
    (load_index st w).2.log = w.log := by
  unfold load_index
  split
  · rfl
  · cases hs : w.sidecar with
    | valid idx =>
      simp only []
      split
      · exact rebuild_index_log _ _
      · rfl
    | absent => exact rebuild_index_log _ _
    | corrupt => exact rebuild_index_log _ _

/-- Loading never changes the fault flags. -/
theorem load_index_faults (st : StoreState) (w : World) :
    (load_index st w).2.faults = w.faults := by
  unfold load_index
  split
  · rfl
  · cases hs : w.sidecar with
    | valid idx =>
      simp only []
      split
      · exact rebuild_index_faults _ _
      · rfl
    | absent => exact rebuild_index_faults _ _
    | corrupt => exact rebuild_index_faults _ _

/-- A loaded store's load is a no-op. -/
theorem load_index_loaded (st : StoreState) (w : World)
    (h : st.indexLoaded = true) : load_index st w = (st, w) := by
  unfold load_index
  simp [h]

/-- The count returned by the append loop is the number of records. -/
theorem appendLoop_count (encLen : JsonObj → Nat)
    (rs : List EmissionRecord) (pos : Nat) :
    (appendLoop encLen rs pos).2.2 = rs.length := by
  induction rs generalizing pos with
  | nil => rfl
  | cons r rs ih => simp [appendLoop, ih]

/-- The entries produced by the append loop are one per record. -/
theorem appendLoop_entries_length (encLen : JsonObj → Nat)
    (rs : List EmissionRecord) (pos : Nat) :
    (appendLoop encLen rs pos).2.1.length = rs.length := by
  induction rs generalizing pos with
  | nil => rfl
  | cons r rs ih => simp [appendLoop, ih]

/-- Decoding the JSON object append wrote for a record recovers the four
persisted fields and stamps the reader's source tag. -/
theorem parse_appendSer (src : String) (r : EmissionRecord) :
    parseRecordObj src (appendSer r) = .ok (readBack src r) := rfl

/-- A full scan of the lines append wrote reads back exactly the
records, in order, with the reader's source tag. -/
theorem read_records_appendLoop (encLen : JsonObj → Nat)
    (rs : List EmissionRecord) (pos : Nat) :
    read_records (appendLoop encLen rs pos).1 =
      .ok (rs.map (readBack "jsonl")) := by
  induction rs generalizing pos with
  | nil => rfl
  | cons r rs ih =>
    simp [appendLoop, read_records, parse_appendSer, ih]

/-- Line starts decompose along a concatenation of the log: the second
part starts where the first part's bytes end. -/
theorem lineStarts_append (xs ys : List LogLine) (b : Nat) :
    lineStarts (xs ++ ys) b = lineStarts xs b ++ lineStarts ys (b + logSize xs) := by
  induction xs generalizing b with
  | nil => simp [lineStarts, logSize]
  | cons x xs ih =>
    have harith : b + logSize (x :: xs) = b + x.nlen + logSize xs := by
      simp only [logSize, List.map_cons, List.sum_cons]
      omega
    simp only [List.cons_append, lineStarts, List.cons.injEq, true_and, harith]
    exact ih (b + x.nlen)

/-- The reference index decomposes along a concatenation of the log. -/
theorem goodIndexFrom_append (xs ys : List LogLine) (b : Nat) :
    goodIndexFrom b (xs ++ ys) =
      goodIndexFrom b xs ++ goodIndexFrom (b + logSize xs) ys := by
  unfold goodIndexFrom
  rw [lineStarts_append, List.filterMap_append]

/-- A line yields an entry exactly when it is well-formed. -/
theorem entryOfAt_isSome (off : Nat) (l : LogLine) :
    (entryOfAt off l).isSome = wellFormedLine l := by
  rcases l with ⟨line, plen, nlen⟩
  cases line with
  | blank => rfl
  | notJson => rfl
  | json o =>
    rcases o with ⟨ts, s, g, _, _, _⟩
    cases ts with
    | none => simp [entryOfAt, wellFormedLine]
    | some tf =>
      cases tf with
      | bad => simp [entryOfAt, wellFormedLine]
      | ok t =>
        cases s <;> cases g <;> simp [entryOfAt, wellFormedLine]

/-- The entry derived from a line sits at the offset it was scanned at. -/
theorem entryOfAt_offset (off : Nat) (l : LogLine) (e : IndexEntry)
    (h : entryOfAt off l = some e) : e.offset = off := by
  rcases l with ⟨line, plen, nlen⟩
  cases line with
  | blank => exact absurd h (by simp [entryOfAt])
  | notJson => exact absurd h (by simp [entryOfAt])
  | json o =>
    rcases o with ⟨ts, s, g, _, _, _⟩
    cases ts with
    | none => exact absurd h (by simp [entryOfAt])
    | some tf =>
      cases tf with
      | bad => exact absurd h (by simp [entryOfAt])
      | ok t =>
        cases s with
        | none => exact absurd h (by simp [entryOfAt])
        | some s =>
          cases g with
          | none => exact absurd h (by simp [entryOfAt])
          | some g =>
            simp only [entryOfAt, Option.some.injEq] at h
            rw [← h]

/-- On a log free of unparsable-timestamp JSON lines the rebuild scan
completes and returns exactly the reference index. -/
theorem rebuildScan_clean (lines : List LogLine) (b : Nat)
    (h : ∀ l ∈ lines, cleanLine l = true) :
    rebuildScan lines b = .ok (goodIndexFrom b lines) := by
  induction lines generalizing b with
  | nil => rfl
  | cons l rest ih =>
    have hl : cleanLine l = true := h l (List.mem_cons_self l rest)
    have hrest : ∀ x ∈ rest, cleanLine x = true :=
      fun x hx => h x (List.mem_cons_of_mem l hx)
    have ihr := ih (b + l.nlen) hrest
    rcases l with ⟨line, plen, nlen⟩
    cases line with
    | blank =>
      simp only [rebuildScan, ihr]
      simp [goodIndexFrom, lineStarts, entryOfAt]
    | notJson =>
      simp only [rebuildScan, ihr]
      simp [goodIndexFrom, lineStarts, entryOfAt]
    | json o =>
      rcases o with ⟨ts, s, g, rt, v, u⟩
      cases ts with
      | none =>
        simp only [rebuildScan, ihr]
        simp [goodIndexFrom, lineStarts, entryOfAt]
      | some tf =>
        cases tf with
        | bad => exact absurd hl (by simp [cleanLine])
        | ok t =>
          cases s with
          | none =>
            simp only [rebuildScan, ihr]
            simp [goodIndexFrom, lineStarts, entryOfAt]
          | some s =>
            cases g with
            | none =>
              simp only [rebuildScan, ihr]
              simp [goodIndexFrom, lineStarts, entryOfAt]
            | some g =>
              simp only [rebuildScan, ihr]
              simp [goodIndexFrom, lineStarts, entryOfAt]

/-- The reference index has one entry per well-formed line. -/
theorem goodIndexFrom_length (lines : List LogLine) (b : Nat) :
    (goodIndexFrom b lines).length = wellFormedCount lines := by
  induction lines generalizing b with
  | nil => rfl
  | cons l rest ih =>
    have ihr := ih (b + l.nlen)
    by_cases hwf : wellFormedLine l = true
    · have : (entryOfAt b l).isSome = true := by rw [entryOfAt_isSome]; exact hwf
      rcases Option.isSome_iff_exists.mp this with ⟨e, he⟩
      simp [goodIndexFrom, lineStarts, wellFormedCount, List.filter_cons, he, hwf] at ihr ⊢
      simpa [goodIndexFrom] using ihr
    · have hn : entryOfAt b l = none := by
        cases he : entryOfAt b l with
        | none => rfl
        | some e =>
          exact absurd (by rw [← entryOfAt_isSome b l, he]; rfl) hwf
      simp only [Bool.not_eq_true] at hwf
      simp [goodIndexFrom, lineStarts, wellFormedCount, List.filter_cons, hn, hwf] at ihr ⊢
      simpa [goodIndexFrom, wellFormedCount] using ihr

/-- Every line start of a scan from b is at offset at least b. -/
theorem lineStarts_le (lines : List LogLine) (b : Nat) :
    ∀ p ∈ lineStarts lines b, b ≤ p.1 := by
  induction lines generalizing b with
  | nil => intro p hp; exact absurd hp (by simp [lineStarts])
  | cons l rest ih =>
    intro p hp
    rcases List.mem_cons.mp hp with h | h
    · rw [h]
    · exact le_trans (Nat.le_add_right b l.nlen) (ih (b + l.nlen) p h)

/-- With every line occupying at least one byte, the scanned line starts
are strictly increasing. -/
theorem lineStarts_pairwise (lines : List LogLine) (b : Nat)
    (h : ∀ l ∈ lines, 1 ≤ l.nlen) :
    ((lineStarts lines b).map Prod.fst).Pairwise (· < ·) := by
  induction lines generalizing b with
  | nil => simp [lineStarts]
  | cons l rest ih =>
    have hrest : ∀ x ∈ rest, 1 ≤ x.nlen :=
      fun x hx => h x (List.mem_cons_of_mem l hx)
    have hl : 1 ≤ l.nlen := h l (List.mem_cons_self l rest)
    simp only [lineStarts, List.map_cons, List.pairwise_cons]
    constructor
    · intro q hq
      rcases List.mem_map.mp hq with ⟨p, hp, hpq⟩
      have := lineStarts_le rest (b + l.nlen) p hp
      omega
    · exact ih (b + l.nlen) hrest

/-- The offsets of the reference index form a sublist of the line start
offsets. -/
theorem goodIndexFrom_offsets_sublist (lines : List LogLine) (b : Nat) :
    ((goodIndexFrom b lines).map IndexEntry.offset).Sublist
      ((lineStarts lines b).map Prod.fst) := by
  induction lines generalizing b with
  | nil => simp [goodIndexFrom, lineStarts]
  | cons l rest ih =>
    cases he : entryOfAt b l with
    | none =>
      simp only [goodIndexFrom, lineStarts, List.filterMap_cons, he, List.map_cons]
      exact (ih (b + l.nlen)).cons _
    | some e =>
      have heo := entryOfAt_offset b l e he
      simp only [goodIndexFrom, lineStarts, List.filterMap_cons, he, List.map_cons, heo]
      exact (ih (b + l.nlen)).cons₂ _

/-- With every line at least one byte long, the reference index has
strictly increasing offsets. -/
theorem goodIndexFrom_offsets_increasing (lines : List LogLine) (b : Nat)
    (h : ∀ l ∈ lines, 1 ≤ l.nlen) :
    ((goodIndexFrom b lines).map IndexEntry.offset).Pairwise (· < ·) :=
  (lineStarts_pairwise lines b h).sublist (goodIndexFrom_offsets_sublist lines b)

/-- The in-memory entries append builds agree, up to the length field
that append measures with the newline included, with the reference
entries of the lines it writes. -/
theorem appendLoop_keys (encLen : JsonObj → Nat)
    (rs : List EmissionRecord) (pos : Nat) :
    (appendLoop encLen rs pos).2.1.map entryKey =
      (goodIndexFrom pos (appendLoop encLen rs pos).1).map entryKey := by
  induction rs generalizing pos with
  | nil => rfl
  | cons r rs ih =>
    simp only [appendLoop, goodIndexFrom, lineStarts, List.filterMap_cons]
    simp only [appendSer, entryOfAt]
    simp only [List.map_cons, entryKey, goodIndexFrom] at ih ⊢
    exact congrArg _ (ih (pos + (encLen (appendSer r) + 1)))

/-- Every line append writes occupies at least one byte (its payload
plus the terminating newline). -/
theorem appendLoop_nlen (encLen : JsonObj → Nat)
    (rs : List EmissionRecord) (pos : Nat) :
    ∀ l ∈ (appendLoop encLen rs pos).1, 1 ≤ l.nlen := by
  induction rs generalizing pos with
  | nil => intro l hl; exact absurd hl (by simp [appendLoop])
  | cons r rs ih =>
    intro l hl
    rcases List.mem_cons.mp hl with h | h
    · rw [h]; exact Nat.le_add_left 1 (encLen (appendSer r))
    · exact ih (pos + (encLen (appendSer r) + 1)) l h

/-- Every line append writes is well-formed. -/
theorem appendLoop_wellFormed (encLen : JsonObj → Nat)
    (rs : List EmissionRecord) (pos : Nat) :
    ∀ l ∈ (appendLoop encLen rs pos).1, wellFormedLine l = true := by
  induction rs generalizing pos with
  | nil => intro l hl; exact absurd hl (by simp [appendLoop])
  | cons r rs ih =>
    intro l hl
    rcases List.mem_cons.mp hl with h | h
    · rw [h]; rfl
    · exact ih (pos + (encLen (appendSer r) + 1)) l h

/-- A zero-byte log with physically possible lines is empty. -/
theorem logSize_zero (lines : List LogLine)
    (hz : logSize lines = 0) (h : ∀ l ∈ lines, 1 ≤ l.nlen) : lines = [] := by
  cases lines with
  | nil => rfl
  | cons l rest =>
    have h1 : 1 ≤ l.nlen := h l (List.mem_cons_self l rest)
    simp only [logSize, List.map_cons, List.sum_cons] at hz
    omega

/-- Rebuilding a readable log free of unparsable-timestamp JSON lines
produces exactly the reference index. -/
theorem rebuild_index_correct (st : StoreState) (w : World)
    (lines : List LogLine) (hlog : w.log = some lines)
    (hf : w.faults.logRead = false)
    (hclean : ∀ l ∈ lines, cleanLine l = true)
    (hlen : ∀ l ∈ lines, 1 ≤ l.nlen) :
    (rebuild_index st w).1.index = goodIndex lines := by
  unfold rebuild_index
  rw [hlog]
  simp only []
  split
  · rename_i hz
    rw [logSize_zero lines hz hlen]
    rfl
  · rw [hf]
    simp only [Bool.false_eq_true, if_false]
    rw [rebuildScan_clean lines 0 hclean]
    rfl

/-- A fresh load over an absent or corrupt sidecar adopts the rebuild
result as its in-memory index. -/
theorem load_index_rebuilds (st : StoreState) (w : World)
    (hn : st.indexLoaded = false)
    (hs : w.sidecar = .absent ∨ w.sidecar = .corrupt) :
    (load_index st w).1.index = (rebuild_index st w).1.index := by
  unfold load_index
  rw [hn]
  simp only [Bool.false_eq_true, if_false]
  rcases hs with hs | hs <;> rw [hs]

/-- Appending to a loaded store with a writable log: the explicit result
of append. -/
theorem append_of_loaded (encLen : JsonObj → Nat) (st : StoreState)
    (w : World) (rs : List EmissionRecord)
    (hl : st.indexLoaded = true) (hf : w.faults.logWrite = false) :
    append encLen st w rs =
      (.ok rs.length,
       ⟨st.index ++ (appendLoop encLen rs (logSize (w.log.getD []))).2.1,
        st.indexLoaded⟩,
       save_index
         ⟨st.index ++ (appendLoop encLen rs (logSize (w.log.getD []))).2.1,
          st.indexLoaded⟩
         ⟨some (w.log.getD [] ++ (appendLoop encLen rs (logSize (w.log.getD []))).1),
          w.sidecar, w.faults⟩) := by
  unfold append
  rw [load_index_loaded st w hl]
  simp only [hf, Bool.false_eq_true, if_false, appendLoop_count]





/- Claim theorems. -/

/-- C1, counterexample: appending a record whose source tag is "test"
and reading it back with all() yields a record whose source field is the
reader's constant "jsonl", so the returned record is not equal
field-for-field to the appended one. -/
theorem C1_roundtrip_counterexample :
    (allRecords (append encLen1 freshStore emptyWorld [recTest]).2.2).1 =
      .ok [readBack "jsonl" recTest] ∧
    readBack "jsonl" recTest ≠ recTest := by
  exact ⟨rfl, by decide⟩

/-- C1, amended: for every sequence of records appended in order to a
fresh store, all() returns exactly that many records, in the same order,
equal on the four persisted fields (timestamp at UTC-normalized
precision, site_id, region_id, emission_rate_kg_per_h); the source field
comes back as the reader's tag "jsonl" and meta is dropped. -/
theorem C1_roundtrip_amended (encLen : JsonObj → Nat)
    (rs : List EmissionRecord) :
    (append encLen freshStore emptyWorld rs).1 = .ok rs.length ∧
    (allRecords (append encLen freshStore emptyWorld rs).2.2).1 =
      .ok (rs.map (readBack "jsonl")) := by
  have h : append encLen freshStore emptyWorld rs =
      (.ok (appendLoop encLen rs 0).2.2,
       ⟨(appendLoop encLen rs 0).2.1, true⟩,
       ⟨some (appendLoop encLen rs 0).1, .valid (appendLoop encLen rs 0).2.1,
        noFaults⟩) := rfl
  constructor
  · rw [h, appendLoop_count]
  · rw [h]
    show read_records (appendLoop encLen rs 0).1 = _
    exact read_records_appendLoop encLen rs 0

/-- C2: on a store holding one indexed record, tail 0 returns that
record: the slice self._index[-0:] is the whole index, so tail 0 returns
every record, not the empty list the claim requires. -/
theorem C2_tail_zero_bug :
    (tail ⟨[entryA], true⟩ ⟨some [lineA], .valid [entryA], noFaults⟩ 0).1 =
      [readBack "indexed_jsonl" recTest] ∧
    [readBack "indexed_jsonl" recTest] ≠ ([] : List EmissionRecord) := by
  exact ⟨rfl, by decide⟩

/-- C3: on a log holding one well-formed line followed by one line that
is valid JSON with an unparsable timestamp, rebuild ends with an empty
index instead of one entry per well-formed line: the ValueError raised
by parse_timestamp escapes the inner except (JSONDecodeError, KeyError)
clause, and the outer handler resets the whole index. -/
theorem C3_rebuild_valueerror_bug :
    (rebuild_index freshStore
      ⟨some [lineA, badTsLine], .absent, noFaults⟩).1.index = [] ∧
    wellFormedCount [lineA, badTsLine] = 1 := by
  exact ⟨rfl, rfl⟩

/-- C4: on a log holding a well-formed line, a non-JSON line and another
well-formed line, the full scan backing all() raises JSONDecodeError
instead of skipping the bad line and returning the two well-formed
records: read_records has no exception handling around json.loads. -/
theorem C4_full_scan_raises_bug :
    (allRecords ⟨some [lineA, notJsonLine, lineB], .absent, noFaults⟩).1 =
      .error .jsonDecodeError ∧
    wellFormedCount [lineA, notJsonLine, lineB] = 2 := by
  exact ⟨rfl, rfl⟩

/-- C5, counterexample: after rebuilding a log holding one well-formed
line followed by one JSON line with an unparsable timestamp, the index
is empty while the log has one well-formed line, so the index length
does not equal the count of well-formed lines. -/
theorem C5_invariant_counterexample :
    (rebuild_index freshStore
      ⟨some [lineB, badTsLine], .absent, noFaults⟩).1.index.length = 0 ∧
    wellFormedCount [lineB, badTsLine] = 1 := by
  exact ⟨rfl, rfl⟩

/-- C5, amended: the index-log correspondence invariant holds after
every rebuild of a readable log whose JSON-decodable lines all carry
parsable timestamps, and append preserves it whenever the loaded
in-memory index satisfies it: the index lists, in physical log order,
the (offset, timestamp, site_id, region_id) of exactly the well-formed
lines, with strictly increasing offsets and with length equal to the
count of well-formed lines.  (Entry content is compared without the
length field, which append measures with the newline and rebuild
without.) -/
theorem C5_invariant_amended :
    (∀ st w lines, w.log = some lines → w.faults.logRead = false →
      (∀ l ∈ lines, cleanLine l = true) → (∀ l ∈ lines, 1 ≤ l.nlen) →
      (rebuild_index st w).1.index = goodIndex lines ∧
      ((rebuild_index st w).1.index.map IndexEntry.offset).Pairwise (· < ·) ∧
      (rebuild_index st w).1.index.length = wellFormedCount lines) ∧
    (∀ encLen st w lines rs, w.log = some lines →
      w.faults.logWrite = false → st.indexLoaded = true →
      st.index.map entryKey = (goodIndex lines).map entryKey →
      (∀ l ∈ lines, 1 ≤ l.nlen) →
      (append encLen st w rs).1 = .ok rs.length ∧
      (append encLen st w rs).2.2.log =
        some (lines ++ (appendLoop encLen rs (logSize lines)).1) ∧
      (append encLen st w rs).2.1.index.map entryKey =
        (goodIndex (lines ++ (appendLoop encLen rs (logSize lines)).1)).map
          entryKey ∧
      ((append encLen st w rs).2.1.index.map IndexEntry.offset).Pairwise
        (· < ·) ∧
      (append encLen st w rs).2.1.index.length =
        wellFormedCount (lines ++ (appendLoop encLen rs (logSize lines)).1)) := by
  constructor
  · intro st w lines hlog hf hclean hlen
    have hidx := rebuild_index_correct st w lines hlog hf hclean hlen
    refine ⟨hidx, ?_, ?_⟩
    · rw [hidx]
      exact goodIndexFrom_offsets_increasing lines 0 hlen
    · rw [hidx]
      exact goodIndexFrom_length lines 0
  · intro encLen st w lines rs hlog hf hloaded hkeys hlen
    have hgetd : w.log.getD [] = lines := by rw [hlog]; rfl
    have h := append_of_loaded encLen st w rs hloaded hf
    rw [hgetd] at h
    have hkeys2 :
        (st.index ++ (appendLoop encLen rs (logSize lines)).2.1).map entryKey =
        (goodIndex (lines ++ (appendLoop encLen rs (logSize lines)).1)).map
          entryKey := by
      rw [List.map_append, hkeys, appendLoop_keys]
      unfold goodIndex
      rw [goodIndexFrom_append, List.map_append, Nat.zero_add]
    have hlen2 : ∀ l ∈ lines ++ (appendLoop encLen rs (logSize lines)).1,
        1 ≤ l.nlen := by
      intro l hl
      rcases List.mem_append.mp hl with hl | hl
      · exact hlen l hl
      · exact appendLoop_nlen encLen rs (logSize lines) l hl
    have hoff :
        (st.index ++ (appendLoop encLen rs (logSize lines)).2.1).map
            IndexEntry.offset =
        (goodIndex (lines ++ (appendLoop encLen rs (logSize lines)).1)).map
          IndexEntry.offset := by
      have h1 : ∀ es : List IndexEntry,
          es.map IndexEntry.offset = (es.map entryKey).map Prod.fst := by
        intro es
        rw [List.map_map]
        rfl
      rw [h1, h1, hkeys2]
    refine ⟨?_, ?_, ?_, ?_, ?_⟩
    · rw [h]
    · rw [h]
      show (save_index _ _).log = _
      rw [save_index_log]
    · rw [h]
      exact hkeys2
    · rw [h]
      show ((st.index ++ (appendLoop encLen rs (logSize lines)).2.1).map
        IndexEntry.offset).Pairwise (· < ·)
      rw [hoff]
      exact goodIndexFrom_offsets_increasing _ 0 hlen2
    · rw [h]
      show (st.index ++ (appendLoop encLen rs (logSize lines)).2.1).length = _
      have := congrArg List.length hkeys2
      rw [List.length_map, List.length_map] at this
      rw [this]
      exact goodIndexFrom_length _ 0

/-- C5, witness: the amended invariant instantiated on a concrete
two-line log, for the rebuild part, and on a concrete loaded store and
one appended record, for the append part. -/
theorem C5_invariant_witness :
    (rebuild_index freshStore
      ⟨some [lineA, lineB], .absent, noFaults⟩).1.index =
        goodIndex [lineA, lineB] ∧
    (append encLen1 ⟨goodIndex [lineA, lineB], true⟩
      ⟨some [lineA, lineB], .valid (goodIndex [lineA, lineB]), noFaults⟩
      [recNext]).1 = .ok 1 := by
  constructor
  · exact (C5_invariant_amended.1 freshStore
      ⟨some [lineA, lineB], .absent, noFaults⟩ [lineA, lineB] rfl rfl
      (by decide) (by decide)).1
  · exact (C5_invariant_amended.2 encLen1 ⟨goodIndex [lineA, lineB], true⟩
      ⟨some [lineA, lineB], .valid (goodIndex [lineA, lineB]), noFaults⟩
      [lineA, lineB] [recNext] rfl rfl rfl rfl (by decide)).1

/-- C6, counterexample: with the one-record store loaded, a failure to
open the log for reading makes tail return the empty list normally,
exactly what an empty store would return, instead of propagating an
error: the outer except clause of _read_records_by_offsets only logs.
With the fault absent the same call returns the record, so the failure
is observably swallowed, never surfaced. -/
theorem C6_io_swallowed_counterexample :
    (tail ⟨[entryA], true⟩
      ⟨some [lineA], .absent, ⟨true, false, false, false, false⟩⟩ 1).1 = [] ∧
    (tail ⟨[entryA], true⟩ ⟨some [lineA], .absent, noFaults⟩ 1).1 =
      [readBack "indexed_jsonl" recTest] := by
  exact ⟨rfl, rfl⟩

/-- A failure to open the log for reading makes the offset-resolution
read return the records collected so far, which is none. -/
theorem read_records_by_offsets_fault (w : World) (offs : List Nat)
    (hf : w.faults.logRead = true) : read_records_by_offsets w offs = [] := by
  unfold read_records_by_offsets
  split
  · rfl
  · cases hw : w.log with
    | none => rfl
    | some lines => simp [hf]

/-- C6, amended: append propagates a log-write failure to the caller,
and all(), summary() and to_dicts() propagate a log-read failure other
than non-existence, while a missing log file is an empty result (empty
list, all-zero summary) and never an error; but the four index-backed
queries (tail, query_time_range, query_by_site, query_by_region) swallow
log-read failures, returning the empty list with no error surfaced, and
_rebuild_index likewise swallows them, leaving an empty index; a sidecar
read failure is not an error either (it triggers rebuild), and a sidecar
write failure never propagates: append still returns its count whenever
the log write itself succeeds, whatever the sidecar fault flags say. -/
theorem C6_io_amended :
    (∀ encLen st w rs, w.faults.logWrite = true →
      (append encLen st w rs).1 = .error .ioError) ∧
    (∀ w, w.log = none → (allRecords w).1 = .ok [] ∧
      (summary w).1 = .ok ⟨0, 0, 0, 0⟩ ∧ (to_dicts w).1 = .ok []) ∧
    (∀ w lines, w.log = some lines → w.faults.logRead = true →
      (allRecords w).1 = .error .ioError ∧
      (summary w).1 = .error .ioError ∧
      (to_dicts w).1 = .error .ioError) ∧
    (∀ st w n, w.faults.logRead = true → (tail st w n).1 = []) ∧
    (∀ st w start stop, w.faults.logRead = true →
      (query_time_range st w start stop).1 = []) ∧
    (∀ st w site, w.faults.logRead = true →
      (query_by_site st w site).1 = []) ∧
    (∀ st w region, w.faults.logRead = true →
      (query_by_region st w region).1 = []) ∧
    (∀ st w, w.faults.logRead = true → (rebuild_index st w).1.index = []) ∧
    (∀ st w idx, st.indexLoaded = false → w.sidecar = .valid idx →
      w.faults.sidecarRead = true →
      (load_index st w).1.index = (rebuild_index st w).1.index) ∧
    (∀ encLen st w rs, w.faults.logWrite = false →
      (append encLen st w rs).1 = .ok rs.length) := by
  have hfpres : ∀ (st : StoreState) (w : World) st1 w1,
      load_index st w = (st1, w1) → w1.faults = w.faults := by
    intro st w st1 w1 hli
    rw [← load_index_faults st w, hli]
  refine ⟨?_, ?_, ?_, ?_, ?_, ?_, ?_, ?_, ?_, ?_⟩
  · intro encLen st w rs hw
    rcases hli : load_index st w with ⟨st1, w1⟩
    simp [append, hli, hfpres st w st1 w1 hli, hw]
  · intro w hl
    refine ⟨?_, ?_, ?_⟩
    · simp [allRecords, hl]
    · simp [summary, allRecords, hl]
    · simp [to_dicts, allRecords, hl]
  · intro w lines hl hf
    refine ⟨?_, ?_, ?_⟩
    · simp [allRecords, hl, hf]
    · simp [summary, allRecords, hl, hf]
    · simp [to_dicts, allRecords, hl, hf]
  · intro st w n hf
    rcases hli : load_index st w with ⟨st1, w1⟩
    have hf1 : w1.faults.logRead = true := by
      rw [hfpres st w st1 w1 hli, hf]
    simp only [tail, hli]
    split
    · rfl
    · exact read_records_by_offsets_fault w1 _ hf1
  · intro st w start stop hf
    rcases hli : load_index st w with ⟨st1, w1⟩
    have hf1 : w1.faults.logRead = true := by
      rw [hfpres st w st1 w1 hli, hf]
    simp only [query_time_range, hli]
    split
    · rfl
    · exact read_records_by_offsets_fault w1 _ hf1
  · intro st w site hf
    rcases hli : load_index st w with ⟨st1, w1⟩
    have hf1 : w1.faults.logRead = true := by
      rw [hfpres st w st1 w1 hli, hf]
    simp only [query_by_site, hli]
    exact read_records_by_offsets_fault w1 _ hf1
  · intro st w region hf
    rcases hli : load_index st w with ⟨st1, w1⟩
    have hf1 : w1.faults.logRead = true := by
      rw [hfpres st w st1 w1 hli, hf]
    simp only [query_by_region, hli]
    exact read_records_by_offsets_fault w1 _ hf1
  · intro st w hf
    unfold rebuild_index
    cases hl : w.log with
    | none => rfl
    | some lines =>
      simp only []
      split
      · rfl
      · simp [hf]
  · intro st w idx hn hs hf
    unfold load_index
    rw [hn]
    simp only [Bool.false_eq_true, if_false]
    rw [hs]
    simp only [hf, if_true]
  · intro encLen st w rs hw
    rcases hli : load_index st w with ⟨st1, w1⟩
    simp [append, hli, hfpres st w st1 w1 hli, hw, appendLoop_count]

/-- C6, witness: the amended statement instantiated clause by clause:
a concrete append under a log-write fault, a missing log, a concrete
log-read fault on all(), the four index-backed queries and rebuild under
that same fault, a concrete sidecar-read fault that only triggers a
rebuild, and a concrete append whose sidecar save fails but that still
returns its count. -/
theorem C6_io_witness :
    (append encLen1 freshStore
      ⟨some [], .absent, ⟨false, true, false, false, false⟩⟩ [recTest]).1 =
      .error .ioError ∧
    (allRecords ⟨none, .absent, noFaults⟩).1 = .ok [] ∧
    (summary ⟨none, .absent, noFaults⟩).1 = .ok ⟨0, 0, 0, 0⟩ ∧
    (allRecords ⟨some [lineA], .absent,
      ⟨true, false, false, false, false⟩⟩).1 = .error .ioError ∧
    (to_dicts ⟨some [lineA], .absent,
      ⟨true, false, false, false, false⟩⟩).1 = .error .ioError ∧
    (tail freshStore ⟨some [lineA], .absent,
      ⟨true, false, false, false, false⟩⟩ 3).1 = [] ∧
    (query_time_range freshStore ⟨some [lineA], .absent,
      ⟨true, false, false, false, false⟩⟩ none none).1 = [] ∧
    (query_by_site freshStore ⟨some [lineA], .absent,
      ⟨true, false, false, false, false⟩⟩ "site-1").1 = [] ∧
    (query_by_region freshStore ⟨some [lineA], .absent,
      ⟨true, false, false, false, false⟩⟩ "region-1").1 = [] ∧
    (rebuild_index freshStore ⟨some [lineA], .absent,
      ⟨true, false, false, false, false⟩⟩).1.index = [] ∧
    (load_index freshStore ⟨some [lineA], .valid [entryA],
      ⟨false, false, true, false, false⟩⟩).1.index =
      (rebuild_index freshStore ⟨some [lineA], .valid [entryA],
        ⟨false, false, true, false, false⟩⟩).1.index ∧
    (append encLen1 staleStore staleWorld [recNext]).1 = .ok 1 := by
  refine ⟨?_, ?_, ?_, ?_, ?_, ?_, ?_, ?_, ?_, ?_, ?_, ?_⟩
  · exact C6_io_amended.1 encLen1 freshStore _ [recTest] rfl
  · exact (C6_io_amended.2.1 _ rfl).1
  · exact (C6_io_amended.2.1 _ rfl).2.1
  · exact (C6_io_amended.2.2.1 _ [lineA] rfl rfl).1
  · exact (C6_io_amended.2.2.1 _ [lineA] rfl rfl).2.2
  · exact C6_io_amended.2.2.2.1 freshStore _ 3 rfl
  · exact C6_io_amended.2.2.2.2.1 freshStore _ none none rfl
  · exact C6_io_amended.2.2.2.2.2.1 freshStore _ "site-1" rfl
  · exact C6_io_amended.2.2.2.2.2.2.1 freshStore _ "region-1" rfl
  · exact C6_io_amended.2.2.2.2.2.2.2.1 freshStore _ rfl
  · exact C6_io_amended.2.2.2.2.2.2.2.2.1 freshStore _ [entryA] rfl rfl rfl
  · exact C6_io_amended.2.2.2.2.2.2.2.2.2 encLen1 staleStore staleWorld
      [recNext] rfl

/-- The first component of a rebuild does not depend on the sidecar
state. -/
theorem rebuild_index_fst_sidecar (st : StoreState)
    (l : Option (List LogLine)) (f : Faults) (s1 s2 : Sidecar) :
    (rebuild_index st ⟨l, s1, f⟩).1 = (rebuild_index st ⟨l, s2, f⟩).1 := by
  unfold rebuild_index
  cases l with
  | none => rfl
  | some lines =>
    simp only []
    split
    · rfl
    · split
      · rfl
      · split <;> rfl

/-- C7, counterexample: the operation trace of _save_index does not
satisfy the write-then-replace discipline: it opens the sidecar path
itself in truncating mode. -/
theorem C7_atomic_save_counterexample :
    ¬ writeThenReplace (save_index_ops []) := by
  decide

/-- C7, amended: _save_index serializes the full in-memory index by
opening the sidecar path itself in truncating "wb" mode and writing the
pickle straight into it, with no temporary file and no replace step, so
an interrupted save can leave a half-written sidecar; the design
compensates because a fresh load treats an unreadable sidecar exactly
like an absent one and rebuilds from the log. -/
theorem C7_save_amended :
    (∀ idx, save_index_ops idx =
        [.openTruncate true, .writeData true idx, .closeFile true] ∧
      FileOp.replaceOntoFinal ∉ save_index_ops idx) ∧
    (∀ (st : StoreState) (w : World),
      (load_index st ⟨w.log, .corrupt, w.faults⟩).1 =
      (load_index st ⟨w.log, .absent, w.faults⟩).1) := by
  constructor
  · intro idx
    refine ⟨rfl, ?_⟩
    simp [save_index_ops]
  · intro st w
    unfold load_index
    split
    · rfl
    · simp only []
      rw [rebuild_index_fst_sidecar st w.log w.faults .corrupt .absent]

/-- C8, counterexample: append over a current valid sidecar with the
sidecar save failing at open returns the count, but the old sidecar
survives intact and stale, so a fresh handle's load adopts its single
entry without rebuilding while the log now holds two well-formed
records: the fresh load does not regain a correct index. -/
theorem C8_stale_sidecar_counterexample :
    (append encLen1 staleStore staleWorld [recNext]).1 = .ok 1 ∧
    (load_index freshStore
      ⟨(append encLen1 staleStore staleWorld [recNext]).2.2.log,
       (append encLen1 staleStore staleWorld [recNext]).2.2.sidecar,
       noFaults⟩).1.index.length = 1 ∧
    (goodIndex
      ((append encLen1 staleStore staleWorld [recNext]).2.2.log.getD
        [])).length = 2 := by
  exact ⟨rfl, rfl, rfl⟩

/-- C8, amended: whenever the log write succeeds, append returns the
count of records written regardless of any failure to persist the
sidecar; and when a failed save left the sidecar corrupt (a failure
after its truncating open), a fresh load of a readable, clean log
rebuilds the correct reference index. -/
theorem C8_durability_amended :
    (∀ encLen st w rs, w.faults.logWrite = false →
      (append encLen st w rs).1 = .ok rs.length) ∧
    (∀ st w lines, w.sidecar = .corrupt → st.indexLoaded = false →
      w.log = some lines → w.faults.logRead = false →
      (∀ l ∈ lines, cleanLine l = true) → (∀ l ∈ lines, 1 ≤ l.nlen) →
      (load_index st w).1.index = goodIndex lines) := by
  constructor
  · intro encLen st w rs hw
    rcases hli : load_index st w with ⟨st1, w1⟩
    have hf : w1.faults = w.faults := by
      rw [← load_index_faults st w, hli]
    simp [append, hli, hf, hw, appendLoop_count]
  · intro st w lines hs hn hlog hf hclean hlen
    rw [load_index_rebuilds st w hn (Or.inr hs)]
    exact rebuild_index_correct st w lines hlog hf hclean hlen

/-- C8, witness: the amended statement instantiated at the concrete
stale-sidecar append and at a fresh load over a corrupt sidecar and a
concrete two-line log. -/
theorem C8_durability_witness :
    (append encLen1 staleStore staleWorld [recNext]).1 = .ok 1 ∧
    (load_index freshStore
      ⟨some [lineA, lineB], .corrupt, noFaults⟩).1.index =
        goodIndex [lineA, lineB] := by
  constructor
  · exact C8_durability_amended.1 encLen1 staleStore staleWorld [recNext] rfl
  · exact C8_durability_amended.2 freshStore
      ⟨some [lineA, lineB], .corrupt, noFaults⟩ [lineA, lineB] rfl rfl rfl rfl
      (by decide) (by decide)

/-- C9, counterexample: on a two-record log, requesting the offsets in
decreasing order [10, 0] returns the records in increasing offset order
(site-1 then site-2) because _read_records_by_offsets iterates over
sorted(offsets), not over the requested order. -/
theorem C9_request_order_counterexample :
    read_records_by_offsets ⟨some [lineA, lineB], .absent, noFaults⟩
      [10, 0] =
      [readBack "indexed_jsonl" recTest, readBack "indexed_jsonl" recNext] ∧
    [readBack "indexed_jsonl" recTest, readBack "indexed_jsonl" recNext] ≠
      [readBack "indexed_jsonl" recNext, readBack "indexed_jsonl" recTest] := by
  exact ⟨rfl, by decide⟩

/-- C9, amended: the offset-resolution read visits the requested offsets
in increasing order, skipping (not failing on) every offset whose entry
does not parse; when the requested offsets are already nondecreasing, as
they are for every caller in the store, this coincides with request
order. -/
theorem C9_request_order_amended (w : World) (lines : List LogLine)
    (offsets : List Nat) (hlog : w.log = some lines)
    (hf : w.faults.logRead = false)
    (hs : List.Sorted (· ≤ ·) offsets) :
    read_records_by_offsets w offsets =
      offsets.filterMap (readOneAt lines) := by
  unfold read_records_by_offsets
  split
  · rename_i h
    rw [h]
    rfl
  · rw [hlog]
    simp only [hf, Bool.false_eq_true, if_false]
    rw [List.Sorted.insertionSort_eq hs]

/-- C9, witness: the amended statement at the concrete two-line log with
the nondecreasing request [0, 10]. -/
theorem C9_request_order_witness :
    read_records_by_offsets ⟨some [lineA, lineB], .absent, noFaults⟩
      [0, 10] = [0, 10].filterMap (readOneAt [lineA, lineB]) := by
  exact C9_request_order_amended ⟨some [lineA, lineB], .absent, noFaults⟩
    [lineA, lineB] [0, 10] rfl rfl (by decide)

/-- The world a tail query leaves behind is the world its lazy load
produced. -/
theorem tail_world (st : StoreState) (w : World) (n : Nat) :
    (tail st w n).2.2 = (load_index st w).2 := by
  unfold tail
  rcases hli : load_index st w with ⟨st1, w1⟩
  simp only []
  split <;> rfl

/-- The world a time-range query leaves behind is the world its lazy
load produced. -/
theorem query_time_range_world (st : StoreState) (w : World)
    (start stop : Option Int) :
    (query_time_range st w start stop).2.2 = (load_index st w).2 := by
  unfold query_time_range
  rcases hli : load_index st w with ⟨st1, w1⟩
  simp only []
  split <;> rfl

/-- The world a site query leaves behind is the world its lazy load
produced. -/
theorem query_by_site_world (st : StoreState) (w : World) (site : String) :
    (query_by_site st w site).2.2 = (load_index st w).2 := by
  unfold query_by_site
  rcases hli : load_index st w with ⟨st1, w1⟩
  rfl

/-- The world a region query leaves behind is the world its lazy load
produced. -/
theorem query_by_region_world (st : StoreState) (w : World)
    (region : String) :
    (query_by_region st w region).2.2 = (load_index st w).2 := by
  unfold query_by_region
  rcases hli : load_index st w with ⟨st1, w1⟩
  rfl

/-- The world get_sites leaves behind is the world its lazy load
produced. -/
theorem get_sites_world (st : StoreState) (w : World) :
    (get_sites st w).2.2 = (load_index st w).2 := by
  unfold get_sites
  rcases hli : load_index st w with ⟨st1, w1⟩
  rfl

/-- The world get_regions leaves behind is the world its lazy load
produced. -/
theorem get_regions_world (st : StoreState) (w : World) :
    (get_regions st w).2.2 = (load_index st w).2 := by
  unfold get_regions
  rcases hli : load_index st w with ⟨st1, w1⟩
  rfl

/-- Reading the whole log leaves both files untouched. -/
theorem allRecords_world (w : World) : (allRecords w).2 = w := by
  unfold allRecords
  cases hl : w.log with
  | none => rfl
  | some lines =>
    simp only []
    split <;> rfl

/-- Computing the summary leaves both files untouched. -/
theorem summary_world (w : World) : (summary w).2 = w := by
  unfold summary
  rcases ha : allRecords w with ⟨r, w1⟩
  have hw : w1 = w := by rw [← allRecords_world w, ha]
  cases r with
  | error e => exact hw
  | ok rs =>
    simp only []
    cases rs.map EmissionRecord.emission_rate_kg_per_h with
    | nil => exact hw
    | cons v vs => exact hw

/-- Materializing to_dicts leaves both files untouched. -/
theorem to_dicts_world (w : World) : (to_dicts w).2 = w := by
  unfold to_dicts
  rcases ha : allRecords w with ⟨r, w1⟩
  have hw : w1 = w := by rw [← allRecords_world w, ha]
  cases r with
  | error e => exact hw
  | ok rs => exact hw

/-- C10: every query operation of the store leaves the byte content of
the log unchanged, and the only file a query may write is the index
sidecar, during the lazy first load (once the index is loaded, queries
change neither file). -/
theorem C10_queries_preserve_log (st : StoreState) (w : World) (n : Nat)
    (start stop : Option Int) (site region : String) :
    (tail st w n).2.2.log = w.log ∧
    (query_time_range st w start stop).2.2.log = w.log ∧
    (query_by_site st w site).2.2.log = w.log ∧
    (query_by_region st w region).2.2.log = w.log ∧
    (get_sites st w).2.2.log = w.log ∧
    (get_regions st w).2.2.log = w.log ∧
    (allRecords w).2 = w ∧ (summary w).2 = w ∧ (to_dicts w).2 = w ∧
    ((tail st w n).2.2.sidecar = w.sidecar ∨ st.indexLoaded = false) ∧
    ((query_time_range st w start stop).2.2.sidecar = w.sidecar ∨
      st.indexLoaded = false) ∧
    ((query_by_site st w site).2.2.sidecar = w.sidecar ∨
      st.indexLoaded = false) ∧
    ((query_by_region st w region).2.2.sidecar = w.sidecar ∨
      st.indexLoaded = false) ∧
    ((get_sites st w).2.2.sidecar = w.sidecar ∨ st.indexLoaded = false) ∧
    ((get_regions st w).2.2.sidecar = w.sidecar ∨ st.indexLoaded = false) := by
  have hload : ∀ b : Bool, st.indexLoaded = b → b = true →
      (load_index st w).2 = w := by
    intro b hb ht
    rw [load_index_loaded st w (by rw [hb, ht])]
  refine ⟨?_, ?_, ?_, ?_, ?_, ?_, allRecords_world w, summary_world w,
    to_dicts_world w, ?_, ?_, ?_, ?_, ?_, ?_⟩
  · rw [tail_world]; exact load_index_log st w
  · rw [query_time_range_world]; exact load_index_log st w
  · rw [query_by_site_world]; exact load_index_log st w
  · rw [query_by_region_world]; exact load_index_log st w
  · rw [get_sites_world]; exact load_index_log st w
  · rw [get_regions_world]; exact load_index_log st w
  · cases hb : st.indexLoaded with
    | false => exact Or.inr rfl
    | true => exact Or.inl (by rw [tail_world, hload true hb rfl])
  · cases hb : st.indexLoaded with
    | false => exact Or.inr rfl
    | true => exact Or.inl (by rw [query_time_range_world, hload true hb rfl])
  · cases hb : st.indexLoaded with
    | false => exact Or.inr rfl
    | true => exact Or.inl (by rw [query_by_site_world, hload true hb rfl])
  · cases hb : st.indexLoaded with
    | false => exact Or.inr rfl
    | true => exact Or.inl (by rw [query_by_region_world, hload true hb rfl])
  · cases hb : st.indexLoaded with
    | false => exact Or.inr rfl
    | true => exact Or.inl (by rw [get_sites_world, hload true hb rfl])
  · cases hb : st.indexLoaded with
    | false => exact Or.inr rfl
    | true => exact Or.inl (by rw [get_regions_world, hload true hb rfl])
